import Mathlib

/-!
Shallow embedding of `src/server.js` (visveshkhanna/rest-api-basic).

The server keeps a mutable array `books` of records `{id, title, author}`
and exposes CRUD handlers.  We embed each handler as a pure function from
the current store (and the parsed request data) to the updated store and
the response.

The Express layer parses the path parameter with JavaScript `Number(...)`.
We model the parsed value as `Option Int`: `some n` for a numeric value
`n`, `none` for `NaN` (a string that does not parse as a number).  `NaN`
compares unequal to every id under `===`, which `idMatches` reflects by
returning `false` on `none`.  All ids the server ever stores are integers,
so `Int` suffices for the values that can compare equal to a stored id.
-/

namespace RestApi

/-- A book record, as stored in the `books` array. -/
structure Book where
  id : Int
  title : String
  author : String
deriving DecidableEq, Repr

/-- The in-memory store: the `books` array. -/
abbrev Store := List Book

/-- The seed collection `books` (server.js lines 20–23). -/
def seedBooks : Store :=
  [⟨1, "Book1", "Author1"⟩, ⟨2, "Book2", "Author2"⟩]

/-- `Number(req.params.id) === b.id`: `none` models `NaN`, which is
`===`-unequal to everything. -/
def idMatches (pid : Option Int) (i : Int) : Bool :=
  match pid with
  | none => false
  | some n => n == i

/-- The self link `/books/{id}` attached to a record. -/
def selfLink (i : Int) : String := "/books/" ++ toString i

/-- The id the POST handler computes:
`books.length ? books[books.length - 1].id + 1 : 1` (line 75). -/
def nextId (books : Store) : Int :=
  match books.getLast? with
  | none => 1
  | some b => b.id + 1

/-- Response of `GET /books/:id` (lines 60–71): status, and on success the
record together with its `self` and `collection` links. -/
def getBook (books : Store) (pid : Option Int) :
    Nat × Option (Book × String × String) :=
  match books.find? (fun b => idMatches pid b.id) with
  | none => (404, none)
  | some book => (200, some (book, selfLink book.id, "/books"))

/-- `GET /books` (lines 36–57): status, each record with its self link,
and the collection self link. -/
def listBooks (books : Store) : Nat × List (Book × String) × String :=
  (200, books.map (fun b => (b, selfLink b.id)), "/books")

/-- `POST /books` (lines 74–82): appends the new record and returns it
with status 201 and its self link. -/
def createBook (books : Store) (title author : String) :
    Store × Nat × Book × String :=
  let newBook : Book := ⟨nextId books, title, author⟩
  (books ++ [newBook], 201, newBook, selfLink (nextId books))

/-- `PUT /books/:id` (lines 85–98): `findIndex` on the numeric path id;
on miss, 404 and no body; on hit, overwrite that slot with a record
carrying the path id and the payload fields, and return it. -/
def updateBook (books : Store) (pid : Option Int) (title author : String) :
    Store × Nat × Option (Book × String) :=
  match books.findIdx? (fun b => idMatches pid b.id) with
  | none => (books, 404, none)
  | some index =>
    let newBook : Book := ⟨pid.getD 0, title, author⟩
    (books.set index newBook, 200, some (newBook, selfLink newBook.id))

/-- `DELETE /books/:id` (lines 101–106): `findIndex` on the numeric path
id; on miss, 404; on hit, `splice(index, 1)` and 204. -/
def deleteBook (books : Store) (pid : Option Int) : Store × Nat :=
  match books.findIdx? (fun b => idMatches pid b.id) with
  | none => (books, 404)
  | some index => (books.eraseIdx index, 204)

/-- The store-mutating requests (GET handlers never write `books`). -/
inductive Op where
  | create (title author : String)
  | update (pid : Option Int) (title author : String)
  | delete (pid : Option Int)

/-- The store left behind by one request. -/
def applyOp (books : Store) : Op → Store
  | .create t a => (createBook books t a).1
  | .update pid t a => (updateBook books pid t a).1
  | .delete pid => (deleteBook books pid).1

/-- The store after a sequence of requests. -/
def run (books : Store) (ops : List Op) : Store :=
  ops.foldl applyOp books

/-- States the server can be in: reachable from the seed data by some
request sequence. -/
def Reachable (s : Store) : Prop :=
  ∃ ops, run seedBooks ops = s

/-- The ids of a store, in storage order. -/
def ids (books : Store) : List Int := books.map Book.id

/-- The ids assigned by successive `POST /books` calls, starting from a
given store. -/
def createdIds (books : Store) : List (String × String) → List Int
  | [] => []
  | (t, a) :: rest =>
    nextId books :: createdIds (createBook books t a).1 rest

lemma idMatches_some_true {n i : Int} (h : idMatches (some n) i = true) : n = i := by
  simpa [idMatches] using h

lemma ids_getLast? (s : Store) : (ids s).getLast? = s.getLast?.map Book.id :=
  List.getLast?_map _ _

lemma set_getElem_eq_self (l : List Int) (i : Nat) (hi : i < l.length) :
    l.set i l[i] = l := by
  apply List.ext_getElem
  · simp
  · intro n h1 h2
    rw [List.getElem_set]
    split
    · simp_all
    · rfl

lemma le_getLast_of_sorted : ∀ (l : List Int) (m : Int),
    List.Sorted (· < ·) l → l.getLast? = some m → ∀ x ∈ l, x ≤ m := by
  intro l
  induction l with
  | nil => intro m _ hm; simp at hm
  | cons y t ih =>
    intro m hs hm x hx
    rcases List.sorted_cons.mp hs with ⟨hy, ht⟩
    cases t with
    | nil =>
      simp only [List.getLast?_singleton, Option.some.injEq] at hm
      simp only [List.mem_singleton] at hx
      omega
    | cons z t2 =>
      rw [List.getLast?_cons_cons] at hm
      rcases List.mem_cons.mp hx with rfl | hx2
      · exact le_of_lt (hy m (List.mem_of_getLast?_eq_some hm))
      · exact ih m ht hm x hx2

lemma ids_create (s : Store) (t a : String) :
    ids (createBook s t a).1 = ids s ++ [nextId s] := by
  simp [createBook, ids]

lemma nextId_create (s : Store) (t a : String) :
    nextId (createBook s t a).1 = nextId s + 1 := by
  simp [createBook, nextId, List.getLast?_concat]

lemma sorted_ids_create (s : Store) (t a : String)
    (hs : List.Sorted (· < ·) (ids s)) :
    List.Sorted (· < ·) (ids (createBook s t a).1) := by
  rw [ids_create]
  apply List.pairwise_append.mpr
  refine ⟨hs, List.pairwise_singleton _ _, ?_⟩
  intro x hx y hy
  simp only [List.mem_singleton] at hy
  subst hy
  cases hlast : s.getLast? with
  | none =>
    rcases List.getLast?_eq_none_iff.mp hlast with rfl
    simp [ids] at hx
  | some b =>
    have hx_le : x ≤ b.id := by
      apply le_getLast_of_sorted (ids s) b.id hs _ x hx
      rw [ids_getLast?, hlast]
      rfl
    simp only [nextId, hlast]
    omega

lemma ids_update (s : Store) (pid : Option Int) (t a : String) :
    ids (updateBook s pid t a).1 = ids s := by
  unfold updateBook
  cases hidx : s.findIdx? (fun b => idMatches pid b.id) with
  | none => rfl
  | some index =>
    obtain ⟨hlt, hp, -⟩ := List.findIdx?_eq_some_iff_getElem.mp hidx
    cases pid with
    | none => simp [idMatches] at hp
    | some n =>
      have hn : n = (s[index]).id := idMatches_some_true hp
      have hlt2 : index < (List.map Book.id s).length := by simpa using hlt
      simp only [ids, List.map_set, Option.getD_some]
      have hgm : (List.map Book.id s)[index] = (s[index]).id := by
        rw [List.getElem_map]
      rw [hn, ← hgm, set_getElem_eq_self]

lemma sorted_ids_delete (s : Store) (pid : Option Int)
    (hs : List.Sorted (· < ·) (ids s)) :
    List.Sorted (· < ·) (ids (deleteBook s pid).1) := by
  unfold deleteBook
  cases hidx : s.findIdx? (fun b => idMatches pid b.id) with
  | none => exact hs
  | some index =>
    have hsub : List.Sublist (ids (s.eraseIdx index)) (ids s) :=
      List.Sublist.map Book.id (List.eraseIdx_sublist s index)
    exact List.Pairwise.sublist hsub hs

lemma sorted_ids_applyOp (s : Store) (op : Op)
    (hs : List.Sorted (· < ·) (ids s)) :
    List.Sorted (· < ·) (ids (applyOp s op)) := by
  cases op with
  | create t a => exact sorted_ids_create s t a hs
  | update pid t a =>
    show List.Sorted (· < ·) (ids (updateBook s pid t a).1)
    rw [ids_update]
    exact hs
  | delete pid => exact sorted_ids_delete s pid hs

lemma sorted_ids_run (ops : List Op) : ∀ s : Store,
    List.Sorted (· < ·) (ids s) → List.Sorted (· < ·) (ids (run s ops)) := by
  induction ops with
  | nil => intro s hs; exact hs
  | cons op rest ih =>
    intro s hs
    simp only [run, List.foldl_cons]
    exact ih (applyOp s op) (sorted_ids_applyOp s op hs)

lemma sorted_ids_seed : List.Sorted (· < ·) (ids seedBooks) := by
  simp only [ids, seedBooks, List.map_cons, List.map_nil]
  decide

lemma sorted_ids_of_reachable (s : Store) (h : Reachable s) :
    List.Sorted (· < ·) (ids s) := by
  obtain ⟨ops, rfl⟩ := h
  exact sorted_ids_run ops seedBooks sorted_ids_seed

/-- C1: `POST /books` always succeeds with status 201 for any title and
author (empty strings included): it builds the record whose id is the last
record's id + 1 when the store is non-empty and 1 when it is empty,
appends it at the end of the store, and returns it with the self link
`/books/{id}`. -/
theorem create_spec (s : Store) (t a : String) :
    (createBook s t a).2.1 = 201 ∧
    (createBook s t a).2.2.1 =
      ⟨(match s.getLast? with | none => 1 | some b => b.id + 1), t, a⟩ ∧
    (createBook s t a).1 = s ++ [(createBook s t a).2.2.1] ∧
    (createBook s t a).2.2.2 = selfLink (createBook s t a).2.2.1.id := by
  refine ⟨rfl, ?_, rfl, rfl⟩
  simp only [createBook, nextId]

/-- C2: in every reachable state, the id the POST handler assigns (the
last record's id + 1) equals max(existing ids) + 1 when the collection is
non-empty, and it assigns 1 on the empty collection. -/
theorem create_assigns_max_plus_one (s : Store) (h : Reachable s)
    (hne : s ≠ []) (t a : String) :
    ∃ m, m ∈ ids s ∧ (∀ j ∈ ids s, j ≤ m) ∧
      (createBook s t a).2.2.1.id = m + 1 ∧
      (createBook ([] : Store) t a).2.2.1.id = 1 := by
  have hs := sorted_ids_of_reachable s h
  cases hlast : s.getLast? with
  | none => exact absurd (List.getLast?_eq_none_iff.mp hlast) hne
  | some b =>
    refine ⟨b.id, ?_, ?_, ?_, rfl⟩
    · exact List.mem_map_of_mem Book.id (List.mem_of_getLast?_eq_some hlast)
    · exact le_getLast_of_sorted (ids s) b.id hs
        (by rw [ids_getLast?, hlast]; rfl)
    · simp [createBook, nextId, hlast]

/-- Witness for C2 at the seed store. -/
theorem create_assigns_max_plus_one_witness :
    ∃ m, m ∈ ids seedBooks ∧ (∀ j ∈ ids seedBooks, j ≤ m) ∧
      (createBook seedBooks "Book3" "Author3").2.2.1.id = m + 1 ∧
      (createBook ([] : Store) "Book3" "Author3").2.2.1.id = 1 :=
  create_assigns_max_plus_one seedBooks ⟨[], rfl⟩ (by decide) "Book3" "Author3"

/-- C3: in every reachable state no two live records share an id: the list
of stored ids has no duplicate. -/
theorem reachable_ids_nodup (s : Store) (h : Reachable s) : (ids s).Nodup :=
  (sorted_ids_of_reachable s h).nodup

/-- Witness for C3 at the seed store. -/
theorem reachable_ids_nodup_witness : (ids seedBooks).Nodup :=
  reachable_ids_nodup seedBooks ⟨[], rfl⟩

/-- C9: a path identifier that does not parse as a number (`Number` yields
`NaN`, modelled as `none`, which `===`-matches no id) makes GET, PUT and
DELETE behave exactly as a miss: 404, empty body, store untouched — never
a distinct error kind. -/
theorem unparseable_id_behaves_as_no_match (s : Store) (t a : String) :
    getBook s none = (404, none) ∧
    updateBook s none t a = (s, 404, none) ∧
    deleteBook s none = (s, 404) := by
  have hf : s.find? (fun b => idMatches none b.id) = none :=
    List.find?_eq_none.mpr (by intro x _; simp [idMatches])
  have hi : s.findIdx? (fun b => idMatches none b.id) = none :=
    List.findIdx?_eq_none_iff.mpr (by intro x _; simp [idMatches])
  refine ⟨?_, ?_, ?_⟩
  · simp [getBook, hf]
  · simp [updateBook, hi]
  · simp [deleteBook, hi]

/-- C10: when the path id matches no record, the failing operation leaves
the collection exactly as it was: PUT and DELETE return the unchanged
store with 404 and no body, and GET (which never writes the store — its
handler only reads `books`) returns 404 with no body. -/
theorem notfound_leaves_store_unchanged (s : Store) (pid : Option Int)
    (t a : String) (h : ∀ b ∈ s, idMatches pid b.id = false) :
    (updateBook s pid t a).1 = s ∧ (updateBook s pid t a).2 = (404, none) ∧
    (deleteBook s pid).1 = s ∧ (deleteBook s pid).2 = 404 ∧
    getBook s pid = (404, none) := by
  have hf : s.find? (fun b => idMatches pid b.id) = none :=
    List.find?_eq_none.mpr (by intro x hx; simp [h x hx])
  have hi : s.findIdx? (fun b => idMatches pid b.id) = none :=
    List.findIdx?_eq_none_iff.mpr (by intro x hx; simp [h x hx])
  refine ⟨?_, ?_, ?_, ?_, ?_⟩ <;>
    simp [updateBook, deleteBook, getBook, hf, hi]

/-- Witness for C10 at the seed store with the unmatched id 999. -/
theorem notfound_leaves_store_unchanged_witness :
    (updateBook seedBooks (some 999) "T" "A").1 = seedBooks ∧
    (updateBook seedBooks (some 999) "T" "A").2 = (404, none) ∧
    (deleteBook seedBooks (some 999)).1 = seedBooks ∧
    (deleteBook seedBooks (some 999)).2 = 404 ∧
    getBook seedBooks (some 999) = (404, none) :=
  notfound_leaves_store_unchanged seedBooks (some 999) "T" "A" (by decide)

/-- C4 counterexample: on the seed store, DELETE `/books/2` succeeds (204)
and removes the record with id 2 — the maximum — yet the very next POST
assigns id 2 again: the deleted id is reused, contradicting the claim that
a deleted id is never reassigned. -/
theorem deleted_max_id_is_reused :
    (deleteBook seedBooks (some 2)).2 = 204 ∧
    (∀ b ∈ (deleteBook seedBooks (some 2)).1, b.id ≠ 2) ∧
    (createBook (deleteBook seedBooks (some 2)).1 "Book3" "Author3").2.2.1.id
      = 2 := by
  decide

/-- C4 amended: after a successful DELETE of the record with id `i`, a
deleted id can be assigned again: the POST performed next assigns id `i`
exactly when, at that point, the remaining collection is empty and
`i = 1`, or its last record has id `i - 1` (as happens on the seed store
after deleting the maximum id 2). -/
theorem create_id_reuse_characterization (s : Store) (i : Int)
    (t a : String) (h : (deleteBook s (some i)).2 = 204) :
    ((createBook (deleteBook s (some i)).1 t a).2.2.1.id = i ↔
      ((deleteBook s (some i)).1 = [] ∧ i = 1) ∨
      (∃ b, ((deleteBook s (some i)).1).getLast? = some b ∧ b.id = i - 1)) := by
  generalize (deleteBook s (some i)).1 = s2
  cases hlast : s2.getLast? with
  | none =>
    rcases List.getLast?_eq_none_iff.mp hlast with rfl
    simp only [createBook, nextId, List.getLast?_nil]
    constructor
    · intro h1
      exact Or.inl ⟨by trivial, h1.symm⟩
    · rintro (⟨-, rfl⟩ | ⟨b, hb, -⟩)
      · rfl
      · simp at hb
  | some b =>
    have hne : s2 ≠ [] := by
      intro hcon
      rw [hcon] at hlast
      simp at hlast
    have hval : (createBook s2 t a).2.2.1.id = b.id + 1 := by
      simp [createBook, nextId, hlast]
    rw [hval]
    constructor
    · intro hb
      exact Or.inr ⟨b, rfl, by omega⟩
    · rintro (⟨hcon, -⟩ | ⟨c, hc1, hc2⟩)
      · exact absurd hcon hne
      · cases hc1
        omega

/-- Witness for the amended C4 at the seed store, deleting the maximum
id 2: the characterization holds there (and its right side is true, so
id 2 is indeed reassigned). -/
theorem create_id_reuse_characterization_witness :
    ((createBook (deleteBook seedBooks (some 2)).1 "T" "A").2.2.1.id = 2 ↔
      ((deleteBook seedBooks (some 2)).1 = [] ∧ (2 : Int) = 1) ∨
      (∃ b, ((deleteBook seedBooks (some 2)).1).getLast? = some b ∧
        b.id = 2 - 1)) :=
  create_id_reuse_characterization seedBooks 2 "T" "A" (by decide)

/-- C5 counterexample: from the program's initial store (the seed data
holding ids 1 and 2), the first POST assigns id 3, not 1. -/
theorem first_create_from_seed_gets_id_three :
    (createBook seedBooks "T" "A").2.2.1.id = 3 ∧
    (createBook seedBooks "T" "A").2.2.1.id ≠ 1 := by
  decide

lemma createdIds_getD (inputs : List (String × String)) : ∀ (s : Store)
    (n : Nat), n < inputs.length →
    (createdIds s inputs).getD n 0 = nextId s + n := by
  induction inputs with
  | nil =>
    intro s n hn
    simp at hn
  | cons p rest ih =>
    intro s n hn
    cases p with
    | mk t a =>
      cases n with
      | zero => simp [createdIds]
      | succ k =>
        have hk : k < rest.length := by simpa using hn
        simp only [createdIds, List.getD_cons_succ]
        rw [ih _ k hk, nextId_create]
        push_cast
        ring

/-- C5 amended: with no deletions, the n-th POST (n counted from 0)
assigns id n + 1 when starting from an empty store, and id n + 3 when
starting from the program's seed store, which already holds ids 1 and 2. -/
theorem nth_created_id (inputs : List (String × String)) (n : Nat)
    (hn : n < inputs.length) :
    (createdIds ([] : Store) inputs).getD n 0 = n + 1 ∧
    (createdIds seedBooks inputs).getD n 0 = n + 3 := by
  have h1 : nextId ([] : Store) = 1 := rfl
  have h2 : nextId seedBooks = 3 := rfl
  constructor
  · rw [createdIds_getD inputs ([] : Store) n hn, h1]
    omega
  · rw [createdIds_getD inputs seedBooks n hn, h2]
    omega

/-- Witness for the amended C5 with a single POST. -/
theorem nth_created_id_witness :
    (createdIds ([] : Store) [("T", "A")]).getD 0 0 = (0 : Nat) + 1 ∧
    (createdIds seedBooks [("T", "A")]).getD 0 0 = (0 : Nat) + 3 :=
  nth_created_id [("T", "A")] 0 (by decide)

lemma find?_take_none (s : Store) (p : Book → Bool) (index : Nat)
    (hlt : index < s.length)
    (hmin : ∀ j (hj : j < index), ¬p (s.get ⟨j, Nat.lt_trans hj hlt⟩)) :
    (s.take index).find? p = none := by
  apply List.find?_eq_none.mpr
  intro x hx
  obtain ⟨j, hj, hxj⟩ := List.getElem_of_mem hx
  have hj2 : j < index := by
    rw [List.length_take] at hj
    omega
  have hxs : x = s.get ⟨j, Nat.lt_trans hj2 hlt⟩ := by
    rw [← hxj, List.getElem_take]
    simp [List.get_eq_getElem]
  rw [hxs]
  exact hmin j hj2

/-- C6: when a record with id `i` is present, PUT `/books/i` overwrites
the slot holding that record with the record built from the *path* id and
the payload title/author (the handler reads only `title` and `author`
from the payload, so any `id` inside it is ignored), answering 200 with
the new record and its self link, and a subsequent GET `/books/i`
answers 200 with exactly that record, id unchanged. -/
theorem update_then_get (s : Store) (i : Int) (t a : String)
    (h : ∃ b ∈ s, b.id = i) :
    ∃ index, ∃ hlt : index < s.length,
      (s.get ⟨index, hlt⟩).id = i ∧
      (∀ j (hj : j < index), (s.get ⟨j, Nat.lt_trans hj hlt⟩).id ≠ i) ∧
      (updateBook s (some i) t a).1 = s.set index ⟨i, t, a⟩ ∧
      (updateBook s (some i) t a).2.1 = 200 ∧
      (updateBook s (some i) t a).2.2 = some (⟨i, t, a⟩, selfLink i) ∧
      getBook (updateBook s (some i) t a).1 (some i) =
        (200, some (⟨i, t, a⟩, selfLink i, "/books")) := by
  have hex : ∃ x, x ∈ s ∧ (fun b => idMatches (some i) b.id) x = true := by
    obtain ⟨b, hb, hbid⟩ := h
    exact ⟨b, hb, by simp [idMatches, hbid]⟩
  have hidx := List.findIdx?_eq_some_of_exists hex
  obtain ⟨hlt, hp, hmin⟩ := List.findIdx?_eq_some_iff_getElem.mp hidx
  refine ⟨s.findIdx (fun b => idMatches (some i) b.id), hlt, ?_, ?_, ?_, ?_,
    ?_, ?_⟩
  · rw [List.get_eq_getElem]
    exact (idMatches_some_true hp).symm
  · intro j hj
    have hnm := hmin j hj
    rw [List.get_eq_getElem]
    intro hcon
    apply hnm
    simp [idMatches, hcon]
  · simp [updateBook, hidx]
  · simp [updateBook, hidx]
  · simp [updateBook, hidx]
  · have hstore : (updateBook s (some i) t a).1 =
        s.set (s.findIdx (fun b => idMatches (some i) b.id)) ⟨i, t, a⟩ := by
      simp [updateBook, hidx]
    rw [hstore]
    have hsplit : s.set (s.findIdx (fun b => idMatches (some i) b.id))
        (⟨i, t, a⟩ : Book) =
        s.take (s.findIdx (fun b => idMatches (some i) b.id)) ++
          ⟨i, t, a⟩ :: s.drop (s.findIdx (fun b => idMatches (some i) b.id) + 1) := by
      rw [List.set_eq_take_append_cons_drop, if_pos hlt]
    rw [hsplit]
    have hft : (s.take (s.findIdx (fun b => idMatches (some i) b.id))).find?
        (fun b => idMatches (some i) b.id) = none := by
      apply find?_take_none s _ _ hlt
      intro j hj
      exact hmin j hj
    have hfc : List.find? (fun b => idMatches (some i) b.id)
        ((⟨i, t, a⟩ : Book) ::
          s.drop (s.findIdx (fun b => idMatches (some i) b.id) + 1)) =
        some ⟨i, t, a⟩ :=
      List.find?_cons_of_pos _ (by simp [idMatches])
    simp [getBook, List.find?_append, hft, hfc, selfLink]

/-- Witness for C6: PUT `/books/1` with title `X`, author `Y` on the seed
store. -/
theorem update_then_get_witness :
    ∃ index, ∃ hlt : index < seedBooks.length,
      (seedBooks.get ⟨index, hlt⟩).id = 1 ∧
      (∀ j (hj : j < index),
        (seedBooks.get ⟨j, Nat.lt_trans hj hlt⟩).id ≠ 1) ∧
      (updateBook seedBooks (some 1) "X" "Y").1 =
        seedBooks.set index ⟨1, "X", "Y"⟩ ∧
      (updateBook seedBooks (some 1) "X" "Y").2.1 = 200 ∧
      (updateBook seedBooks (some 1) "X" "Y").2.2 =
        some (⟨1, "X", "Y"⟩, selfLink 1) ∧
      getBook (updateBook seedBooks (some 1) "X" "Y").1 (some 1) =
        (200, some (⟨1, "X", "Y"⟩, selfLink 1, "/books")) :=
  update_then_get seedBooks 1 "X" "Y" ⟨⟨1, "Book1", "Author1"⟩, by decide, rfl⟩

/-- C7: when the ids are duplicate-free (as in every reachable state) and
a record with id `i` is present, DELETE `/books/i` answers 204 and
removes exactly that record: the store splits as `l1 ++ b :: l2` with
`b.id = i`, the result is `l1 ++ l2`, and no record of `l1` or `l2`
carries id `i` — every other record is kept unchanged, in order. -/
theorem delete_removes_exactly_one (s : Store) (i : Int)
    (hnd : (ids s).Nodup) (h : ∃ b ∈ s, b.id = i) :
    (deleteBook s (some i)).2 = 204 ∧
    ∃ b l1 l2, b.id = i ∧ s = l1 ++ b :: l2 ∧
      (deleteBook s (some i)).1 = l1 ++ l2 ∧
      (∀ x ∈ l1, x.id ≠ i) ∧ (∀ x ∈ l2, x.id ≠ i) := by
  have hex : ∃ x, x ∈ s ∧ (fun b => idMatches (some i) b.id) x = true := by
    obtain ⟨b, hb, hbid⟩ := h
    exact ⟨b, hb, by simp [idMatches, hbid]⟩
  have hidx := List.findIdx?_eq_some_of_exists hex
  obtain ⟨hlt, hp, hmin⟩ := List.findIdx?_eq_some_iff_getElem.mp hidx
  have hstatus : (deleteBook s (some i)).2 = 204 := by
    simp [deleteBook, hidx]
  refine ⟨hstatus, s.get ⟨_, hlt⟩,
    s.take (s.findIdx (fun b => idMatches (some i) b.id)),
    s.drop (s.findIdx (fun b => idMatches (some i) b.id) + 1),
    ?_, ?_, ?_, ?_, ?_⟩
  · rw [List.get_eq_getElem]
    exact (idMatches_some_true hp).symm
  · rw [List.get_eq_getElem]
    conv =>
      lhs
      rw [← List.take_append_drop
        (s.findIdx (fun b => idMatches (some i) b.id)) s]
    rw [List.getElem_cons_drop s _ hlt]
  · have herase : (deleteBook s (some i)).1 =
        s.eraseIdx (s.findIdx (fun b => idMatches (some i) b.id)) := by
      simp [deleteBook, hidx]
    rw [herase, List.eraseIdx_eq_take_drop_succ]
  · intro x hx
    obtain ⟨j, hj, hxj⟩ := List.getElem_of_mem hx
    have hj2 : j < s.findIdx (fun b => idMatches (some i) b.id) := by
      rw [List.length_take] at hj
      omega
    have hnm := hmin j hj2
    have hxs : x = s.get ⟨j, Nat.lt_trans hj2 hlt⟩ := by
      rw [← hxj, List.getElem_take]
      simp [List.get_eq_getElem]
    intro hcon
    apply hnm
    rw [List.get_eq_getElem] at hxs
    simp [idMatches, ← hxs, hcon]
  · intro x hx hcon
    have hbid : (s.get ⟨_, hlt⟩).id = i := (idMatches_some_true hp).symm
    have hsplit : s =
        s.take (s.findIdx (fun b => idMatches (some i) b.id)) ++
          s.get ⟨_, hlt⟩ ::
            s.drop (s.findIdx (fun b => idMatches (some i) b.id) + 1) := by
      rw [List.get_eq_getElem]
      conv =>
        lhs
        rw [← List.take_append_drop
          (s.findIdx (fun b => idMatches (some i) b.id)) s]
      rw [List.getElem_cons_drop s _ hlt]
    have hnd2 : (ids (s.get ⟨_, hlt⟩ ::
        s.drop (s.findIdx (fun b => idMatches (some i) b.id) + 1))).Nodup := by
      have := hnd
      rw [hsplit, ids, List.map_append] at this
      exact (List.Nodup.of_append_right this)
    rw [ids, List.map_cons, List.nodup_cons] at hnd2
    apply hnd2.1
    have hxmem : x.id ∈ List.map Book.id
        (s.drop (s.findIdx (fun b => idMatches (some i) b.id) + 1)) :=
      List.mem_map_of_mem Book.id hx
    have heq : (s.get ⟨_, hlt⟩).id = x.id := by rw [hbid, hcon]
    rw [heq]
    exact hxmem

/-- Witness for C7: DELETE `/books/1` on the seed store. -/
theorem delete_removes_exactly_one_witness :
    (deleteBook seedBooks (some 1)).2 = 204 ∧
    ∃ b l1 l2, b.id = 1 ∧ seedBooks = l1 ++ b :: l2 ∧
      (deleteBook seedBooks (some 1)).1 = l1 ++ l2 ∧
      (∀ x ∈ l1, x.id ≠ 1) ∧ (∀ x ∈ l2, x.id ≠ 1) :=
  delete_removes_exactly_one seedBooks 1 (by decide)
    ⟨⟨1, "Book1", "Author1"⟩, by decide, rfl⟩

lemma find?_none_iff_no_match (s : Store) (pid : Option Int) :
    s.find? (fun b => idMatches pid b.id) = none ↔
      ¬∃ b ∈ s, idMatches pid b.id = true := by
  rw [List.find?_eq_none]
  constructor
  · rintro hall ⟨b, hb, hpb⟩
    exact hall b hb hpb
  · intro hne x hx hpx
    exact hne ⟨x, hx, hpx⟩

lemma findIdx?_none_iff_no_match (s : Store) (pid : Option Int) :
    s.findIdx? (fun b => idMatches pid b.id) = none ↔
      ¬∃ b ∈ s, idMatches pid b.id = true := by
  rw [List.findIdx?_eq_none_iff]
  constructor
  · rintro hall ⟨b, hb, hpb⟩
    rw [hall b hb] at hpb
    exact Bool.false_ne_true hpb
  · intro hne x hx
    rcases hb : idMatches pid x.id with - | -
    · rfl
    · exact absurd ⟨x, hx, hb⟩ hne

/-- C8: for every state and parsed path identifier, GET, PUT and DELETE on
`/books/:id` fail exactly when no live record's id equals the numeric
value of the path identifier; every such failure is a 404 carrying no
body, and no handler can answer anything but its success status or 404
(GET and PUT otherwise answer 200, DELETE 204, POST unconditionally 201):
NotFound is the only error kind in the system. -/
theorem notfound_is_only_error (s : Store) (pid : Option Int)
    (t a : String) :
    ((getBook s pid).1 = 404 ↔ ¬∃ b ∈ s, idMatches pid b.id = true) ∧
    ((updateBook s pid t a).2.1 = 404 ↔
      ¬∃ b ∈ s, idMatches pid b.id = true) ∧
    ((deleteBook s pid).2 = 404 ↔ ¬∃ b ∈ s, idMatches pid b.id = true) ∧
    (getBook s pid = (404, none) ∨ (getBook s pid).1 = 200) ∧
    ((updateBook s pid t a).2 = (404, none) ∨
      (updateBook s pid t a).2.1 = 200) ∧
    ((deleteBook s pid).2 = 404 ∨ (deleteBook s pid).2 = 204) ∧
    (createBook s t a).2.1 = 201 := by
  refine ⟨?_, ?_, ?_, ?_, ?_, ?_, rfl⟩
  · cases hf : s.find? (fun b => idMatches pid b.id) with
    | none =>
      simp only [getBook, hf]
      simpa using (find?_none_iff_no_match s pid).mp hf
    | some b =>
      simp only [getBook, hf]
      have hmem : ∃ x ∈ s, idMatches pid x.id = true :=
        ⟨b, List.mem_of_find?_eq_some hf, by simpa using List.find?_some hf⟩
      simp [hmem]
  · cases hi : s.findIdx? (fun b => idMatches pid b.id) with
    | none =>
      simp only [updateBook, hi]
      simpa using (findIdx?_none_iff_no_match s pid).mp hi
    | some index =>
      simp only [updateBook, hi]
      obtain ⟨hlt, hp, -⟩ := List.findIdx?_eq_some_iff_getElem.mp hi
      have hmem : ∃ x ∈ s, idMatches pid x.id = true :=
        ⟨s.get ⟨index, hlt⟩, List.get_mem s index hlt, by
          rw [List.get_eq_getElem]; exact hp⟩
      simp [hmem]
  · cases hi : s.findIdx? (fun b => idMatches pid b.id) with
    | none =>
      simp only [deleteBook, hi]
      simpa using (findIdx?_none_iff_no_match s pid).mp hi
    | some index =>
      simp only [deleteBook, hi]
      obtain ⟨hlt, hp, -⟩ := List.findIdx?_eq_some_iff_getElem.mp hi
      have hmem : ∃ x ∈ s, idMatches pid x.id = true :=
        ⟨s.get ⟨index, hlt⟩, List.get_mem s index hlt, by
          rw [List.get_eq_getElem]; exact hp⟩
      simp [hmem]
  · cases hf : s.find? (fun b => idMatches pid b.id) with
    | none => exact Or.inl (by simp [getBook, hf])
    | some b => exact Or.inr (by simp [getBook, hf])
  · cases hi : s.findIdx? (fun b => idMatches pid b.id) with
    | none => exact Or.inl (by simp [updateBook, hi])
    | some index => exact Or.inr (by simp [updateBook, hi])
  · cases hi : s.findIdx? (fun b => idMatches pid b.id) with
    | none => exact Or.inl (by simp [deleteBook, hi])
    | some index => exact Or.inr (by simp [deleteBook, hi])

end RestApi
